import Mathlib

/-!
Verification development for `tools/generate-fix-dictionary.py`: a shallow
embedding of the script's transformation pipeline (field/enum/message/component
loaders, content associator, repeating-group identifier, dictionary emitter)
together with theorems settling the specified properties.

Python dictionaries are embedded as insertion-ordered association lists with
in-place overwrite on duplicate keys (`dinsert`), matching Python 3.7+ dict
semantics.  All functions are computable so that concrete runs can be
evaluated inside proofs.
-/

namespace FixDict

/-- Python-dict assignment `m[k] = v`: overwrites in place if the key is
present (preserving its position), otherwise appends at the end. -/
def dinsert {α β : Type} [DecidableEq α] (k : α) (v : β) :
    List (α × β) → List (α × β)
  | [] => [(k, v)]
  | (k', v') :: rest =>
    if k' = k then (k, v) :: rest else (k', v') :: dinsert k v rest

/-- Python-dict lookup `m.get(k)`: the value at the first matching key. -/
def dget {α β : Type} [DecidableEq α] (k : α) : List (α × β) → Option β
  | [] => none
  | (k', v) :: rest => if k' = k then some v else dget k rest

/-- The keys of an association list, in insertion order (`m.keys()`). -/
def dkeys {α β : Type} (m : List (α × β)) : List α :=
  m.map Prod.fst

/-- `defaultdict(list)` append: `m[k].append(v)` creating `m[k] = []` first
if the key is absent. -/
def dappend {α β : Type} [DecidableEq α] (k : α) (v : β) :
    List (α × List β) → List (α × List β)
  | [] => [(k, [v])]
  | (k', vs) :: rest =>
    if k' = k then (k', vs ++ [v]) :: rest else (k', vs) :: dappend k v rest

/-- Python `str.isdigit()` (ASCII digits): non-empty and all digits. -/
def pyIsDigit (s : String) : Bool :=
  !s.isEmpty && s.data.all Char.isDigit

/-- Python `int(s)` on a digit string: decimal value of the characters. -/
def pyToNat (s : String) : Nat :=
  s.data.foldl (fun n c => n * 10 + (c.toNat - 48)) 0

/-- Python `s[:n]`: the first `n` characters of `s`. -/
def pySlice (s : String) (n : Nat) : String :=
  String.mk (s.data.take n)

/-! ### Field table loader (`parse_fields`, lines 19-36) -/

/-- One `<Field>` record of `Fields.xml`: Tag, Name, Type texts. -/
structure FieldRow where
  tag : Nat
  name : String
  type : String
deriving Repr, DecidableEq

/-- The in-memory field record built by `parse_fields`: tag, name, type and
the enum mapping (value → description), initially empty.  A description may
be `none` when the enum row's SymbolicName element is present but empty. -/
structure FieldRec where
  tag : Nat
  name : String
  type : String
  enums : List (String × Option String)
deriving Repr, DecidableEq

/-- `parse_fields`: builds the tag → field-record dict; a later record with
the same tag silently overwrites the earlier one. -/
def parse_fields (rows : List FieldRow) : List (Nat × FieldRec) :=
  rows.foldl (fun fs r => dinsert r.tag ⟨r.tag, r.name, r.type, []⟩ fs) []

/-! ### Enum loader (`parse_enums`, lines 39-53) -/

/-- One `<Enum>` record of `Enums.xml`.  `symbolicName` / `description` are
`none` when the element is absent, `some none` when the element is present
but empty (ElementTree gives `.text = None`), and `some (some s)` when it
carries text `s`. -/
structure EnumRow where
  tag : Nat
  value : String
  symbolicName : Option (Option String)
  description : Option (Option String)
deriving Repr, DecidableEq

/-- Line 50: `symbolic_name.text if symbolic_name is not None else
(desc.text if desc is not None else value)`. -/
def enumDescription (r : EnumRow) : Option String :=
  match r.symbolicName with
  | some t => t
  | none =>
    match r.description with
    | some t => t
    | none => some r.value

/-- `parse_enums`: for each enum row whose tag is a loaded field, store
`value → description` in that field's enum dict; unknown tags are dropped. -/
def parse_enums (rows : List EnumRow) (fields : List (Nat × FieldRec)) :
    List (Nat × FieldRec) :=
  rows.foldl (fun fs r =>
    match dget r.tag fs with
    | some f =>
      dinsert r.tag { f with enums := dinsert r.value (enumDescription r) f.enums } fs
    | none => fs) fields

/-! ### Message / component loaders (`parse_messages` / `parse_components`,
lines 56-97) -/

/-- One `<Message>` record of `Messages.xml`. -/
structure MessageRow where
  componentId : String
  msgType : String
  name : String
deriving Repr, DecidableEq

/-- One `<Component>` record of `Components.xml`. -/
structure ComponentRow where
  componentId : String
  name : String
  componentType : String
deriving Repr, DecidableEq

/-- A scalar tag reference recorded on a message/component (`'tags'` list). -/
structure TagRef where
  tag : Nat
  indent : Int
deriving Repr, DecidableEq

/-- An entry of a message/component `'groups'` list: either a group start
(a NumInGroup field, lines 145-149) or a component reference
(lines 161-165). -/
inductive GroupRef where
  | countRef (countTag : Nat) (countName : String) (indent : Int)
  | compRef (componentRef : String) (componentName : String) (indent : Int)
deriving Repr, DecidableEq

/-- The in-memory message record: identity plus the two reference lists
filled by the associator. -/
structure MsgRec where
  componentId : String
  msgType : String
  name : String
  tags : List TagRef
  groups : List GroupRef
deriving Repr, DecidableEq

/-- The in-memory component record. -/
structure CompRec where
  componentId : String
  name : String
  type : String
  tags : List TagRef
  groups : List GroupRef
deriving Repr, DecidableEq

/-- `parse_messages`: componentId → message record, empty reference lists. -/
def parse_messages (rows : List MessageRow) : List (String × MsgRec) :=
  rows.foldl (fun ms r =>
    dinsert r.componentId ⟨r.componentId, r.msgType, r.name, [], []⟩ ms) []

/-- `parse_components`: componentId → component record, empty reference
lists. -/
def parse_components (rows : List ComponentRow) : List (String × CompRec) :=
  rows.foldl (fun cs r =>
    dinsert r.componentId ⟨r.componentId, r.name, r.componentType, [], []⟩ cs) []

/-! ### Content associator (`parse_msg_contents`, lines 100-167) -/

/-- One `<MsgContent>` row of `MsgContents.xml` (Indent and Position default
to 0 when the element is absent, lines 111-112). -/
structure ContentRow where
  componentId : String
  tagText : String
  indent : Int
  position : Int
deriving Repr, DecidableEq

/-- Comparison used by the per-owner `sort(key=lambda x: x['position'])`. -/
def posLe (a b : ContentRow) : Prop := a.position ≤ b.position

instance : DecidableRel posLe := fun a b =>
  inferInstanceAs (Decidable (a.position ≤ b.position))

instance : IsTotal ContentRow posLe :=
  ⟨fun a b => Int.le_total a.position b.position⟩

instance : IsTrans ContentRow posLe :=
  ⟨fun _ _ _ hab hbc => le_trans hab hbc⟩

/-- Lines 106-118: group the content rows by owning `ComponentID`
(`defaultdict(list)`), preserving file order inside each owner. -/
def groupByOwner (rows : List ContentRow) : List (String × List ContentRow) :=
  rows.foldl (fun m r => dappend r.componentId r m) []

/-- Lines 120-122: sort one owner's rows ascending by position.  Python's
`list.sort` is stable; `insertionSort` with `≤` on positions is the same
stable sort. -/
def sortByPosition (rows : List ContentRow) : List ContentRow :=
  List.insertionSort posLe rows

/-- The grouped-and-sorted `component_contents` mapping. -/
def component_contents_of (rows : List ContentRow) :
    List (String × List ContentRow) :=
  (groupByOwner rows).map (fun p => (p.1, sortByPosition p.2))

/-- Line 157-159: linear scan for the first component whose declared name
equals `nm`. -/
def findCompByName (components : List (String × CompRec)) (nm : String) :
    Option CompRec :=
  (components.find? (fun p => decide (p.2.name = nm))).map (fun p => p.2)

/-- Lines 130-165: process one content row against a target's
`(tags, groups)` lists. -/
def stepItem (fields : List (Nat × FieldRec)) (comps : List (String × CompRec))
    (acc : List TagRef × List GroupRef) (item : ContentRow) :
    List TagRef × List GroupRef :=
  if item.tagText = "StandardHeader" ∨ item.tagText = "StandardTrailer" then
    acc
  else if pyIsDigit item.tagText then
    let tag := pyToNat item.tagText
    match dget tag fields with
    | some f =>
      if f.type = "NumInGroup" then
        (acc.1, acc.2 ++ [GroupRef.countRef tag f.name item.indent])
      else
        (acc.1 ++ [⟨tag, item.indent⟩], acc.2)
    | none => acc
  else
    match findCompByName comps item.tagText with
    | some rc =>
      (acc.1, acc.2 ++ [GroupRef.compRef rc.componentId rc.name item.indent])
    | none => acc

/-- Lines 125-165: attach one owner's sorted rows to its record.  The owner
is resolved against the messages dict first, falling back to the components
dict (`messages.get(comp_id) or components.get(comp_id)`); unresolved owners
are skipped. -/
def applyOwner (fields : List (Nat × FieldRec))
    (state : List (String × MsgRec) × List (String × CompRec))
    (entry : String × List ContentRow) :
    List (String × MsgRec) × List (String × CompRec) :=
  match dget entry.1 state.1 with
  | some m =>
    let acc := entry.2.foldl (stepItem fields state.2) (m.tags, m.groups)
    (dinsert entry.1 { m with tags := acc.1, groups := acc.2 } state.1, state.2)
  | none =>
    match dget entry.1 state.2 with
    | some c =>
      let acc := entry.2.foldl (stepItem fields state.2) (c.tags, c.groups)
      (state.1, dinsert entry.1 { c with tags := acc.1, groups := acc.2 } state.2)
    | none => state

/-- `parse_msg_contents`: group and sort the rows, attach them to their
owners, and return the updated `(messages, components)` together with the
`component_contents` mapping (which the function returns in the source). -/
def parse_msg_contents (rows : List ContentRow)
    (messages : List (String × MsgRec)) (components : List (String × CompRec))
    (fields : List (Nat × FieldRec)) :
    (List (String × MsgRec) × List (String × CompRec)) ×
      List (String × List ContentRow) :=
  let contents := component_contents_of rows
  (contents.foldl (applyOwner fields) (messages, components), contents)

/-! ### Repeating-group identifier (`identify_repeating_groups`,
lines 170-206) -/

/-- The scan state of the per-component loop: `count_tag`, `first_tag`,
`member_tags` (lines 181-183). -/
structure GroupScan where
  countTag : Option Nat
  firstTag : Option Nat
  memberTags : List Nat
deriving Repr, DecidableEq

/-- Lines 185-196: process one content row of a repeating component.  The
first known NumInGroup row becomes the count tag; otherwise any known
numeric row at indent ≥ 1 is appended as a member (becoming the first-member
anchor if none is set yet). -/
def scanItem (fields : List (Nat × FieldRec)) (st : GroupScan)
    (item : ContentRow) : GroupScan :=
  if pyIsDigit item.tagText then
    let tag := pyToNat item.tagText
    match dget tag fields with
    | some f =>
      if f.type = "NumInGroup" ∧ st.countTag = none then
        { st with countTag := some tag }
      else if item.indent ≥ 1 then
        { st with
            firstTag := match st.firstTag with
              | none => some tag
              | some t => some t,
            memberTags := st.memberTags ++ [tag] }
      else st
    | none => st
  else st

/-- The whole scan of one component's (position-sorted) content rows. -/
def scanContents (fields : List (Nat × FieldRec)) (rows : List ContentRow) :
    GroupScan :=
  rows.foldl (scanItem fields) ⟨none, none, []⟩

/-- Python truthiness of `count_tag` / `first_tag` at line 198: a present,
non-zero integer. -/
def pyTruthy : Option Nat → Bool
  | none => false
  | some n => n != 0

/-- A derived repeating-group record (lines 199-204). -/
structure GroupRec where
  name : String
  countTag : Nat
  firstTag : Nat
  memberTags : List Nat
deriving Repr, DecidableEq

/-- Lines 175-204 for a single component: scan its rows and emit a group
record only when the component is a repeating block with non-empty contents
and both `count_tag` and `first_tag` are truthy. -/
def groupOfComponent (fields : List (Nat × FieldRec)) (comp : CompRec)
    (rows : List ContentRow) : Option GroupRec :=
  if comp.type = "BlockRepeating" then
    if rows.isEmpty then none
    else
      let st := scanContents fields rows
      if pyTruthy st.countTag ∧ pyTruthy st.firstTag then
        some ⟨comp.name, st.countTag.getD 0, st.firstTag.getD 0, st.memberTags⟩
      else none
  else none

/-- `identify_repeating_groups`: fold over the components dict, keying each
emitted group by the component's declared name. -/
def identify_repeating_groups (components : List (String × CompRec))
    (component_contents : List (String × List ContentRow))
    (fields : List (Nat × FieldRec)) : List (String × GroupRec) :=
  components.foldl (fun gs entry =>
    match groupOfComponent fields entry.2
        ((dget entry.1 component_contents).getD []) with
    | some g => dinsert entry.2.name g gs
    | none => gs) []

/-! ### Dictionary emitter (`generate_xml`, lines 209-284).  The XML tree is
embedded structurally: elements become records, attributes become fields
(their `str(...)` rendering is a serialization detail). -/

/-- An `<enum value=... desc=...>` element. -/
structure XmlEnum where
  value : String
  desc : String
deriving Repr, DecidableEq

/-- A `<field>` element with its enum children. -/
structure XmlField where
  tag : Nat
  name : String
  type : String
  enums : List XmlEnum
deriving Repr, DecidableEq

/-- A `<group>` element with its `<member>` children. -/
structure XmlGroup where
  name : String
  countTag : Nat
  firstTag : Nat
  members : List Nat
deriving Repr, DecidableEq

/-- A `<message>` element with its `<tag>` and `<groupRef>` children. -/
structure XmlMessage where
  msgType : String
  name : String
  tags : List Nat
  groupRefs : List String
deriving Repr, DecidableEq

/-- The `<fix-dictionary>` document. -/
structure XmlDoc where
  version : String
  fields : List XmlField
  groups : List XmlGroup
  messages : List XmlMessage
deriving Repr, DecidableEq

/-- Line 227: `desc[:100] if desc else value` — the stored description,
truncated to 100 characters, when it is truthy; otherwise the raw value,
untruncated. -/
def emitDesc (value : String) (desc : Option String) : String :=
  match desc with
  | some d => if d = "" then value else pySlice d 100
  | none => value

/-- Comparison for `sorted(field['enums'].items())`: lexicographic on the
pair, but enum values are dict keys (unique), so ordering by value alone is
the same ordering. -/
def enumLe (a b : String × Option String) : Prop := a.1 ≤ b.1

instance : DecidableRel enumLe := fun a b =>
  inferInstanceAs (Decidable (a.1 ≤ b.1))

/-- Lines 217-227: emit one field element with its sorted enum children. -/
def emitField (f : FieldRec) : XmlField :=
  { tag := f.tag, name := f.name, type := f.type,
    enums := (List.insertionSort enumLe f.enums).map
      (fun e => ⟨e.1, emitDesc e.1 e.2⟩) }

/-- Lines 256-272: resolve one `groups`-list entry of a message to the name
of an emitted `<groupRef>`, if any: a count reference matches the first
group definition with that count tag; a component reference matches only if
the referenced name is a key of the groups mapping. -/
def resolveGroupRef (groups : List (String × GroupRec)) :
    GroupRef → Option String
  | GroupRef.countRef ct _ _ =>
    (groups.find? (fun p => decide (p.2.countTag = ct))).map (fun p => p.1)
  | GroupRef.compRef _ cn _ =>
    match dget cn groups with
    | some _ => some cn
    | none => none

/-- Lines 245-272: emit one message element. -/
def emitMessage (groups : List (String × GroupRec)) (m : MsgRec) : XmlMessage :=
  { msgType := m.msgType, name := m.name,
    tags := m.tags.map (fun t => t.tag),
    groupRefs := m.groups.filterMap (resolveGroupRef groups) }

/-- The sort key of `sorted(messages.keys(), key=lambda x:
messages[x]['msgType'])`. -/
def msgSortKey (messages : List (String × MsgRec)) (k : String) : String :=
  match dget k messages with
  | some m => m.msgType
  | none => ""

/-- `generate_xml`: the three ordered sections of the output document.
Fields are iterated over `sorted(fields.keys())`, groups over
`sorted(groups.keys())`, messages over the message keys sorted (stably) by
message type. -/
def generate_xml (version : String) (fields : List (Nat × FieldRec))
    (messages : List (String × MsgRec)) (components : List (String × CompRec))
    (groups : List (String × GroupRec)) : XmlDoc :=
  { version := version,
    fields := (List.insertionSort (· ≤ ·) (dkeys fields)).filterMap
      (fun t => (dget t fields).map emitField),
    groups := (List.insertionSort (· ≤ ·) (dkeys groups)).filterMap
      (fun n => (dget n groups).map (fun g =>
        ⟨g.name, g.countTag, g.firstTag, g.memberTags⟩)),
    messages :=
      (List.insertionSort
          (fun a b => msgSortKey messages a ≤ msgSortKey messages b)
          (dkeys messages)).filterMap
        (fun k => (dget k messages).map (emitMessage groups)) }

/-! ### Per-version pipeline (`process_version`, lines 292-313) -/

/-- The five relational input tables of one protocol version. -/
structure VersionTables where
  fieldRows : List FieldRow
  enumRows : List EnumRow
  messageRows : List MessageRow
  componentRows : List ComponentRow
  contentRows : List ContentRow
deriving Repr, DecidableEq

/-- `process_version` after the table files are read: load, associate,
identify, emit, producing the output document. -/
def process_version (version : String) (t : VersionTables) : XmlDoc :=
  let fields := parse_enums t.enumRows (parse_fields t.fieldRows)
  let messages := parse_messages t.messageRows
  let components := parse_components t.componentRows
  let r := parse_msg_contents t.contentRows messages components fields
  let groups := identify_repeating_groups r.1.2 r.2 fields
  generate_xml version fields r.1.1 r.1.2 groups

/-! ### Command-line surface (`main`, lines 316-340) -/

/-- `os.path.basename` (POSIX): the part after the last separator. -/
def pyBasename (p : String) : String :=
  (p.splitOn "/").getLastD ""

/-- `os.path.join` for two components. -/
def pyJoin (a b : String) : String :=
  if a = "" then b
  else if a.endsWith "/" then a ++ b
  else a ++ "/" ++ b

/-- The default version list (line 324). -/
def defaultVersions : List String :=
  ["FIX.4.0", "FIX.4.1", "FIX.4.2", "FIX.4.3", "FIX.4.4"]

/-- The observable outcome of `main` before any version is processed:
`usage` models printing the usage message and `sys.exit(code)`;
`missingRepo` models the repository-path error and `sys.exit(code)`;
`run` carries the resolved inputs with which version processing starts. -/
inductive MainOutcome where
  | usage (exitCode : Nat)
  | missingRepo (exitCode : Nat)
  | run (repoPath : String) (outputDir : String) (versions : List String)
deriving Repr, DecidableEq

/-- Lines 327-329: the tolerant self-nested-directory resolution of the
repository path. -/
def resolvedRepo (argv : List String) (pathExists : String → Bool) : String :=
  let repo0 := argv.getD 1 ""
  let inner := pyJoin repo0 (pyBasename repo0)
  if pathExists inner then inner else repo0

/-- `main` (lines 316-338) up to the point where versions start processing,
with the file system abstracted as an existence oracle. -/
def main_model (argv : List String) (pathExists : String → Bool) :
    MainOutcome :=
  if argv.length < 3 then MainOutcome.usage 1
  else
    let outputDir := argv.getD 2 ""
    let versions := if argv.length > 3 then argv.drop 3 else defaultVersions
    let repoPath := resolvedRepo argv pathExists
    if pathExists repoPath then MainOutcome.run repoPath outputDir versions
    else MainOutcome.missingRepo 1

/-! ### Derived predicates used by the theorems -/

/-- A content row qualifying as a count row: numeric tag-text resolving to a
known field of repetition-count type (the conditions of lines 187-191). -/
def isCountRow (fields : List (Nat × FieldRec)) (item : ContentRow) : Bool :=
  pyIsDigit item.tagText &&
    match dget (pyToNat item.tagText) fields with
    | some f => decide (f.type = "NumInGroup")
    | none => false

/-- The invariant of the member scan: the first-member anchor is the head of
the member list, and every member tag resolves in the field table. -/
def scanInv (fields : List (Nat × FieldRec)) (st : GroupScan) : Prop :=
  st.firstTag = st.memberTags.head? ∧
  ∀ t ∈ st.memberTags, (dget t fields).isSome

/-! ### Concrete sample inputs used by witnesses and counterexamples -/

/-- Field table with a single repetition-count field, tag 2. -/
def sampleFieldsA : List (Nat × FieldRec) :=
  parse_fields [⟨2, "NoOrders", "NumInGroup"⟩]

/-- Field table with two repetition-count fields, tags 2 and 3. -/
def sampleFieldsB : List (Nat × FieldRec) :=
  parse_fields [⟨2, "NoOrders", "NumInGroup"⟩, ⟨3, "NoLegs", "NumInGroup"⟩]

/-- A single repeating-block component named `G` with identifier `10`. -/
def sampleComps : List (String × CompRec) :=
  parse_components [⟨"10", "G", "BlockRepeating"⟩]

/-- Contents where the count-typed tag 2 appears again at indent 1. -/
def sampleContentsA : List (String × List ContentRow) :=
  component_contents_of [⟨"10", "2", 0, 1⟩, ⟨"10", "2", 1, 2⟩]

/-- Contents where a second count-typed tag (3) follows at indent 1. -/
def sampleContentsB : List (String × List ContentRow) :=
  component_contents_of [⟨"10", "3", 1, 2⟩, ⟨"10", "2", 0, 1⟩]

/-- Content rows for one owner arriving in file order with positions
3, 1, 2. -/
def sampleRows312 : List ContentRow :=
  [⟨"X", "1", 0, 3⟩, ⟨"X", "5", 0, 1⟩, ⟨"X", "7", 1, 2⟩]

/-- The position-sorted order of `sampleRows312`. -/
def sorted312 : List ContentRow :=
  [⟨"X", "5", 0, 1⟩, ⟨"X", "7", 1, 2⟩, ⟨"X", "1", 0, 3⟩]

/-- A raw enum value longer than the 100-character truncation bound. -/
def longValue : String := String.mk (List.replicate 101 'a')

/-- An enum row whose SymbolicName element is present but empty, with no
Description element, attached to field 1: `parse_enums` stores description
`None` for it. -/
def sampleEnumRowEmptyName : EnumRow := ⟨1, longValue, some none, none⟩

/-- Field table holding a single plain string field, tag 1. -/
def sampleFieldsC : List (Nat × FieldRec) :=
  parse_fields [⟨1, "Account", "STRING"⟩]

/-- A message table where identifier `5` names a message. -/
def sampleMessages : List (String × MsgRec) :=
  parse_messages [⟨"5", "D", "NewOrderSingle"⟩]

/-- A component table where the same identifier `5` also names a plain
component, to exercise the owner-resolution precedence. -/
def sampleCompsDup : List (String × CompRec) :=
  parse_components [⟨"5", "Dup", "Block"⟩]

/-! ### Association-list lemmas -/

theorem dget_dinsert_self {α β : Type} [DecidableEq α] (k : α) (v : β)
    (m : List (α × β)) : dget k (dinsert k v m) = some v := by
  induction m with
  | nil => simp [dinsert, dget]
  | cons p rest ih =>
    by_cases h : p.1 = k
    · simp [dinsert, dget, h]
    · simp [dinsert, dget, h, ih]

theorem dget_mem {α β : Type} [DecidableEq α] {k : α} {v : β}
    {m : List (α × β)} (h : dget k m = some v) : (k, v) ∈ m := by
  induction m with
  | nil => simp [dget] at h
  | cons p rest ih =>
    by_cases hk : p.1 = k
    · rw [show p = (p.1, p.2) from rfl, dget, if_pos hk] at h
      cases h
      simp [← hk]
    · rw [show p = (p.1, p.2) from rfl, dget, if_neg hk] at h
      exact List.mem_cons_of_mem _ (ih h)

theorem mem_dinsert {α β : Type} [DecidableEq α] {p : α × β} {k : α} {v : β}
    {m : List (α × β)} (h : p ∈ dinsert k v m) : p = (k, v) ∨ p ∈ m := by
  induction m with
  | nil => simpa [dinsert] using h
  | cons q rest ih =>
    by_cases hk : q.1 = k
    · rw [show q = (q.1, q.2) from rfl, dinsert, if_pos hk] at h
      rcases List.mem_cons.mp h with h | h
      · exact Or.inl h
      · exact Or.inr (List.mem_cons_of_mem _ h)
    · rw [show q = (q.1, q.2) from rfl, dinsert, if_neg hk] at h
      rcases List.mem_cons.mp h with h | h
      · exact Or.inr (by simp [h])
      · rcases ih h with h | h
        · exact Or.inl h
        · exact Or.inr (List.mem_cons_of_mem _ h)

theorem mem_dkeys_dinsert {α β : Type} [DecidableEq α] {a k : α} {v : β}
    {m : List (α × β)} (h : a ∈ dkeys (dinsert k v m)) :
    a = k ∨ a ∈ dkeys m := by
  rw [dkeys, List.mem_map] at h
  obtain ⟨p, hp, hpa⟩ := h
  rcases mem_dinsert hp with h | h
  · subst h; exact Or.inl hpa.symm
  · exact Or.inr (by rw [dkeys, List.mem_map]; exact ⟨p, h, hpa⟩)

theorem nodup_dkeys_dinsert {α β : Type} [DecidableEq α] (k : α) (v : β)
    {m : List (α × β)} (h : (dkeys m).Nodup) :
    (dkeys (dinsert k v m)).Nodup := by
  induction m with
  | nil => simp [dinsert, dkeys]
  | cons q rest ih =>
    rw [dkeys, List.map_cons, List.nodup_cons] at h
    by_cases hk : q.1 = k
    · rw [show q = (q.1, q.2) from rfl, dinsert, if_pos hk]
      rw [dkeys, List.map_cons, List.nodup_cons]
      exact ⟨by rw [← hk]; exact h.1, h.2⟩
    · rw [show q = (q.1, q.2) from rfl, dinsert, if_neg hk]
      rw [dkeys, List.map_cons, List.nodup_cons]
      refine ⟨fun hmem => ?_, ih h.2⟩
      rcases mem_dkeys_dinsert hmem with h' | h'
      · exact hk h'
      · exact h.1 h'

theorem dget_isSome_of_mem_dkeys {α β : Type} [DecidableEq α] {k : α}
    {m : List (α × β)} (h : k ∈ dkeys m) : ∃ v, dget k m = some v := by
  induction m with
  | nil => simp [dkeys] at h
  | cons p rest ih =>
    by_cases hk : p.1 = k
    · exact ⟨p.2, by rw [show p = (p.1, p.2) from rfl, dget, if_pos hk]⟩
    · rw [dkeys, List.map_cons, List.mem_cons] at h
      rcases h with h | h
      · exact absurd h.symm hk
      · obtain ⟨v, hv⟩ := ih h
        exact ⟨v, by rw [show p = (p.1, p.2) from rfl, dget, if_neg hk]; exact hv⟩

theorem dget_map_snd {α β γ : Type} [DecidableEq α] (g : β → γ) (k : α)
    (m : List (α × β)) :
    dget k (m.map (fun p => (p.1, g p.2))) = (dget k m).map g := by
  induction m with
  | nil => simp [dget]
  | cons p rest ih =>
    by_cases hk : p.1 = k
    · simp [dget, hk]
    · simp [dget, hk, ih]

theorem dget_dappend {α β : Type} [DecidableEq α] (k k' : α) (v : β)
    (m : List (α × List β)) :
    dget k (dappend k' v m) =
      if k' = k then some ((dget k m).getD [] ++ [v]) else dget k m := by
  induction m with
  | nil =>
    by_cases h : k' = k
    · simp [dappend, dget, h]
    · simp [dappend, dget, h]
  | cons p rest ih =>
    by_cases hp : p.1 = k'
    · by_cases hk : k' = k
      · rw [show p = (p.1, p.2) from rfl, dappend, if_pos hp, if_pos hk]
        rw [dget, if_pos (hp.trans hk), dget, if_pos (hp.trans hk)]
        simp
      · rw [show p = (p.1, p.2) from rfl, dappend, if_pos hp, if_neg hk]
        have : ¬ p.1 = k := fun hc => hk ((hp.symm.trans hc))
        rw [dget, if_neg (hp ▸ hk), dget, if_neg this]
    · by_cases hk1 : p.1 = k
      · rw [show p = (p.1, p.2) from rfl, dappend, if_neg hp]
        have hk' : ¬ k' = k := fun hc => hp (hk1.trans hc.symm)
        rw [dget, if_pos hk1, if_neg hk', dget, if_pos hk1]
      · rw [show p = (p.1, p.2) from rfl, dappend, if_neg hp]
        rw [dget, if_neg hk1, ih, dget, if_neg hk1]

/-! ### Grouping and sorting lemmas for the content associator -/

theorem dget_foldl_dappend_some (rows : List ContentRow) (k : String) :
    ∀ (m : List (String × List ContentRow)) (l : List ContentRow),
      dget k m = some l →
      dget k (rows.foldl (fun acc r => dappend r.componentId r acc) m) =
        some (l ++ rows.filter (fun r => decide (r.componentId = k))) := by
  induction rows with
  | nil => intro m l h; simpa using h
  | cons r rows ih =>
    intro m l h
    rw [List.foldl_cons]
    by_cases hc : r.componentId = k
    · have h1 : dget k (dappend r.componentId r m) = some (l ++ [r]) := by
        rw [dget_dappend, if_pos hc, h]
        simp
      rw [ih _ _ h1]
      simp [List.filter_cons, hc]
    · have h1 : dget k (dappend r.componentId r m) = some l := by
        rw [dget_dappend, if_neg hc]; exact h
      rw [ih _ _ h1]
      simp [List.filter_cons, hc]

theorem dget_foldl_dappend_none (rows : List ContentRow) (k : String) :
    ∀ m : List (String × List ContentRow),
      dget k m = none →
      dget k (rows.foldl (fun acc r => dappend r.componentId r acc) m) =
        if (rows.filter (fun r => decide (r.componentId = k))).isEmpty then none
        else some (rows.filter (fun r => decide (r.componentId = k))) := by
  induction rows with
  | nil => intro m h; simpa using h
  | cons r rows ih =>
    intro m h
    rw [List.foldl_cons]
    by_cases hc : r.componentId = k
    · have h1 : dget k (dappend r.componentId r m) = some [r] := by
        rw [dget_dappend, if_pos hc, h]
        simp
      rw [dget_foldl_dappend_some rows k _ _ h1]
      simp [List.filter_cons, hc]
    · have h1 : dget k (dappend r.componentId r m) = none := by
        rw [dget_dappend, if_neg hc]; exact h
      rw [ih _ h1]
      simp [List.filter_cons, hc]

theorem dget_groupByOwner (rows : List ContentRow) (k : String)
    (l : List ContentRow) (h : dget k (groupByOwner rows) = some l) :
    l = rows.filter (fun r => decide (r.componentId = k)) := by
  rw [groupByOwner, dget_foldl_dappend_none rows k [] (by simp [dget])] at h
  by_cases he : (rows.filter (fun r => decide (r.componentId = k))).isEmpty
  · rw [if_pos he] at h; cases h
  · rw [if_neg he] at h; exact (Option.some.inj h).symm

theorem dget_component_contents (rows : List ContentRow) (k : String)
    (l : List ContentRow) (h : dget k (component_contents_of rows) = some l) :
    l = sortByPosition (rows.filter (fun r => decide (r.componentId = k))) := by
  rw [component_contents_of, dget_map_snd] at h
  cases hg : dget k (groupByOwner rows) with
  | none => rw [hg] at h; cases h
  | some l0 =>
    rw [hg] at h
    cases h
    rw [dget_groupByOwner rows k l0 hg]

/-! ### Claim C3: per-owner processing order -/

/-- C3: for every owner, the content associator processes that owner's rows
sorted ascending by position, as a permutation of exactly the owner's rows
from the input file, and stably: for each position value the rows carrying
it keep their source order.  The owner's recorded reference lists are built
by folding over this sorted list. -/
theorem contents_processed_in_position_order (rows : List ContentRow)
    (k : String) (l : List ContentRow)
    (h : dget k (component_contents_of rows) = some l) :
    List.Sorted posLe l ∧
    l.Perm (rows.filter (fun r => decide (r.componentId = k))) ∧
    ∀ p : Int, l.filter (fun r => decide (r.position = p)) =
      (rows.filter (fun r => decide (r.componentId = k))).filter
        (fun r => decide (r.position = p)) := by
  have hl := dget_component_contents rows k l h
  subst hl
  simp only [sortByPosition]
  set f := rows.filter (fun r => decide (r.componentId = k)) with hf
  refine ⟨List.sorted_insertionSort posLe f, List.perm_insertionSort posLe f, ?_⟩
  intro p
  set c := f.filter (fun r => decide (r.position = p)) with hc
  have hPc : c.Pairwise posLe := by
    apply List.pairwise_of_forall_mem_list
    intro a ha b hb
    have hap : a.position = p := of_decide_eq_true (List.mem_filter.mp ha).2
    have hbp : b.position = p := of_decide_eq_true (List.mem_filter.mp hb).2
    unfold posLe
    rw [hap, hbp]
  have hsub : List.Sublist c f := List.filter_sublist f
  have h1 : List.Sublist c (List.insertionSort posLe f) :=
    List.sublist_insertionSort hPc hsub
  have h2 : List.Sublist (c.filter (fun r => decide (r.position = p)))
      ((List.insertionSort posLe f).filter (fun r => decide (r.position = p))) :=
    h1.filter _
  have hcc : c.filter (fun r => decide (r.position = p)) = c := by
    apply List.filter_eq_self.mpr
    intro a ha
    exact (List.mem_filter.mp ha).2
  rw [hcc] at h2
  have h3 : List.Perm ((List.insertionSort posLe f).filter
      (fun r => decide (r.position = p))) c :=
    (List.perm_insertionSort posLe f).filter _
  exact (h2.eq_of_length h3.length_eq.symm).symm

/-- Witness for C3 at the spec's own example: file order with positions
[3, 1, 2] is processed in order [1, 2, 3]. -/
theorem contents_processed_in_position_order_witness :
    List.Sorted posLe sorted312 ∧
    sorted312.Perm (sampleRows312.filter (fun r => decide (r.componentId = "X"))) ∧
    ∀ p : Int, sorted312.filter (fun r => decide (r.position = p)) =
      (sampleRows312.filter (fun r => decide (r.componentId = "X"))).filter
        (fun r => decide (r.position = p)) :=
  contents_processed_in_position_order sampleRows312 "X" sorted312 (by decide)

/-! ### Scan lemmas for the repeating-group identifier -/

theorem scanItem_countTag_some (fields : List (Nat × FieldRec))
    (st : GroupScan) (item : ContentRow) {c : Nat} (h : st.countTag = some c) :
    (scanItem fields st item).countTag = some c := by
  cases hd : pyIsDigit item.tagText with
  | false => simp [scanItem, hd, h]
  | true =>
    cases hf : dget (pyToNat item.tagText) fields with
    | none => simp [scanItem, hd, hf, h]
    | some f =>
      by_cases hi : item.indent ≥ 1
      · simp [scanItem, hd, hf, h, hi]
      · simp [scanItem, hd, hf, h, hi]

theorem scan_countTag_some (fields : List (Nat × FieldRec))
    (rows : List ContentRow) :
    ∀ (st : GroupScan) (c : Nat), st.countTag = some c →
      ((rows.foldl (scanItem fields) st).countTag = some c) := by
  induction rows with
  | nil => intro st c h; simpa using h
  | cons r rows ih =>
    intro st c h
    rw [List.foldl_cons]
    exact ih _ _ (scanItem_countTag_some fields st r h)

theorem scanItem_countTag_not_count (fields : List (Nat × FieldRec))
    (st : GroupScan) (item : ContentRow)
    (h : isCountRow fields item = false) :
    (scanItem fields st item).countTag = st.countTag := by
  cases hd : pyIsDigit item.tagText with
  | false => simp [scanItem, hd]
  | true =>
    cases hf : dget (pyToNat item.tagText) fields with
    | none => simp [scanItem, hd, hf]
    | some f =>
      rw [isCountRow, hf] at h
      simp only [hd, Bool.true_and, decide_eq_false_iff_not] at h
      by_cases hi : item.indent ≥ 1
      · simp [scanItem, hd, hf, h, hi]
      · simp [scanItem, hd, hf, h, hi]

theorem scanItem_countTag_sets (fields : List (Nat × FieldRec))
    (st : GroupScan) (item : ContentRow)
    (h : isCountRow fields item = true) (h0 : st.countTag = none) :
    (scanItem fields st item).countTag = some (pyToNat item.tagText) := by
  cases hf : dget (pyToNat item.tagText) fields with
  | none => rw [isCountRow, hf] at h; simp at h
  | some f =>
    rw [isCountRow, hf] at h
    rw [Bool.and_eq_true, decide_eq_true_eq] at h
    simp [scanItem, h.1, hf, h.2, h0]

theorem scan_countTag_eq_find (fields : List (Nat × FieldRec))
    (rows : List ContentRow) :
    ∀ st : GroupScan, st.countTag = none →
      (rows.foldl (scanItem fields) st).countTag =
        ((rows.find? (isCountRow fields)).map fun r => pyToNat r.tagText) := by
  induction rows with
  | nil => intro st h; simpa using h
  | cons r rows ih =>
    intro st h
    rw [List.foldl_cons]
    by_cases hr : isCountRow fields r = true
    · rw [List.find?_cons_of_pos _ hr]
      exact scan_countTag_some fields rows _ _
        (scanItem_countTag_sets fields st r hr h)
    · have hrf : isCountRow fields r = false := by simpa using hr
      rw [List.find?_cons_of_neg _ (by simp [hrf])]
      exact ih _ ((scanItem_countTag_not_count fields st r hrf).trans h)

theorem scanItem_inv (fields : List (Nat × FieldRec)) (st : GroupScan)
    (item : ContentRow) (h : scanInv fields st) :
    scanInv fields (scanItem fields st item) := by
  cases hd : pyIsDigit item.tagText with
  | false => simpa [scanItem, hd] using h
  | true =>
    cases hf : dget (pyToNat item.tagText) fields with
    | none => simpa [scanItem, hd, hf] using h
    | some f =>
      by_cases hc : f.type = "NumInGroup" ∧ st.countTag = none
      · simpa [scanItem, hd, hf, hc] using h
      · by_cases hi : item.indent ≥ 1
        · simp only [scanItem, hd, hf, hc, hi]
          simp only [if_true, if_false]
          constructor
          · cases hm : st.memberTags with
            | nil =>
              have h1 : st.firstTag = none := by rw [h.1, hm]; rfl
              simp [h1, hm]
            | cons x xs =>
              have h1 : st.firstTag = some x := by rw [h.1, hm]; rfl
              simp [h1, hm]
          · intro t ht
            rcases List.mem_append.mp ht with ht | ht
            · exact h.2 t ht
            · rw [List.mem_singleton.mp ht, hf]; rfl
        · simpa [scanItem, hd, hf, hc, hi] using h

theorem scan_inv (fields : List (Nat × FieldRec)) (rows : List ContentRow) :
    scanInv fields (scanContents fields rows) := by
  rw [scanContents]
  have H : ∀ st : GroupScan, scanInv fields st →
      scanInv fields (rows.foldl (scanItem fields) st) := by
    induction rows with
    | nil => intro st h; simpa using h
    | cons r rows ih =>
      intro st h
      rw [List.foldl_cons]
      exact ih _ (scanItem_inv fields st r h)
  exact H ⟨none, none, []⟩ ⟨rfl, by simp⟩

theorem groupOfComponent_props (fields : List (Nat × FieldRec))
    (comp : CompRec) (rows : List ContentRow) (g : GroupRec)
    (h : groupOfComponent fields comp rows = some g) :
    g.memberTags.head? = some g.firstTag ∧
    ∀ t ∈ g.memberTags, (dget t fields).isSome := by
  rw [groupOfComponent] at h
  by_cases ht : comp.type = "BlockRepeating"
  · rw [if_pos ht] at h
    by_cases he : rows.isEmpty
    · rw [if_pos he] at h; cases h
    · rw [if_neg he] at h
      by_cases hc : pyTruthy (scanContents fields rows).countTag = true ∧
          pyTruthy (scanContents fields rows).firstTag = true
      · rw [if_pos hc] at h
        cases h
        have hinv := scan_inv fields rows
        cases hft : (scanContents fields rows).firstTag with
        | none => rw [hft] at hc; simp [pyTruthy] at hc
        | some ft =>
          refine ⟨?_, ?_⟩
          · simp only [hft, Option.getD_some]
            rw [← hinv.1, hft]
          · exact hinv.2
      · rw [if_neg hc] at h; cases h
  · rw [if_neg ht] at h; cases h

theorem identify_entries_from_components (fields : List (Nat × FieldRec))
    (contents : List (String × List ContentRow)) :
    ∀ (components : List (String × CompRec)) (gs : List (String × GroupRec)),
      (∀ q ∈ gs, ∃ comp rows, groupOfComponent fields comp rows = some q.2) →
      ∀ q ∈ components.foldl (fun gs entry =>
          match groupOfComponent fields entry.2
              ((dget entry.1 contents).getD []) with
          | some g => dinsert entry.2.name g gs
          | none => gs) gs,
        ∃ comp rows, groupOfComponent fields comp rows = some q.2 := by
  intro components
  induction components with
  | nil => intro gs hgs q hq; exact hgs q hq
  | cons e rest ih =>
    intro gs hgs q hq
    rw [List.foldl_cons] at hq
    refine ih _ ?_ q hq
    intro q' hq'
    cases hng : groupOfComponent fields e.2 ((dget e.1 contents).getD []) with
    | none => rw [hng] at hq'; exact hgs q' hq'
    | some g0 =>
      rw [hng] at hq'
      rcases mem_dinsert hq' with h | h
      · exact ⟨e.2, (dget e.1 contents).getD [], by rw [hng, h]⟩
      · exact hgs q' h

/-! ### Claim C10: invariants of the derived groups mapping -/

/-- C10: every group in the derived groups mapping has a non-empty member
list whose first element is the designated first-member anchor, and every
member tag resolves in the loaded field table. -/
theorem derived_groups_invariant (components : List (String × CompRec))
    (contents : List (String × List ContentRow))
    (fields : List (Nat × FieldRec)) :
    ∀ n g, (n, g) ∈ identify_repeating_groups components contents fields →
      g.memberTags ≠ [] ∧ g.memberTags.head? = some g.firstTag ∧
      ∀ t ∈ g.memberTags, (dget t fields).isSome := by
  intro n g h
  obtain ⟨comp, rows, hg⟩ :=
    identify_entries_from_components fields contents components []
      (by simp) (n, g) h
  obtain ⟨h1, h2⟩ := groupOfComponent_props fields comp rows g hg
  refine ⟨?_, h1, h2⟩
  intro hnil
  rw [hnil] at h1
  cases h1

/-- Witness for C10 on a concrete repeating component. -/
theorem derived_groups_invariant_witness :
    (GroupRec.memberTags ⟨"G", 2, 3, [3]⟩ ≠ []) ∧
    (GroupRec.memberTags ⟨"G", 2, 3, [3]⟩).head? =
      some (GroupRec.firstTag ⟨"G", 2, 3, [3]⟩) ∧
    ∀ t ∈ GroupRec.memberTags ⟨"G", 2, 3, [3]⟩,
      (dget t sampleFieldsB).isSome :=
  derived_groups_invariant sampleComps sampleContentsB sampleFieldsB
    "G" ⟨"G", 2, 3, [3]⟩ (by decide)

/-! ### Claim C1: emitted groups, count tag vs member list -/

/-- C1 counterexample: with field 2 of type NumInGroup and a repeating
component whose rows are tag 2 at indent 0 and tag 2 again at indent 1, the
emitted group has count tag 2 AND member list [2] — the count tag appears
in the member-tag list, refuting "C never appears in M". -/
theorem count_tag_in_members_counterexample :
    dget "G" (identify_repeating_groups sampleComps sampleContentsA
        sampleFieldsA) = some ⟨"G", 2, 2, [2]⟩ ∧
    GroupRec.countTag ⟨"G", 2, 2, [2]⟩ ∈
      GroupRec.memberTags ⟨"G", 2, 2, [2]⟩ := by
  decide

/-- C1 amended: every emitted group has a non-empty member list, and a
repeating component whose scan yields no count tag or no first member is
never emitted; however the count tag may itself occur in the member list
(when the count-typed tag also appears as a row at indent ≥ 1). -/
theorem group_emission_requires_members (fields : List (Nat × FieldRec))
    (comp : CompRec) (rows : List ContentRow) :
    (∀ g, groupOfComponent fields comp rows = some g → g.memberTags ≠ []) ∧
    ((scanContents fields rows).countTag = none ∨
        (scanContents fields rows).firstTag = none →
      groupOfComponent fields comp rows = none) := by
  constructor
  · intro g hg
    obtain ⟨h1, _⟩ := groupOfComponent_props fields comp rows g hg
    intro hnil
    rw [hnil] at h1
    cases h1
  · intro hnone
    rw [groupOfComponent]
    by_cases ht : comp.type = "BlockRepeating"
    · rw [if_pos ht]
      by_cases he : rows.isEmpty
      · rw [if_pos he]
      · rw [if_neg he, if_neg]
        rintro ⟨hc, hf⟩
        rcases hnone with h | h
        · rw [h] at hc; simp [pyTruthy] at hc
        · rw [h] at hf; simp [pyTruthy] at hf
    · rw [if_neg ht]

/-- Witness for C1 amended: the member list of the concretely emitted group
is non-empty, and a repeating component with only a count row is not
emitted. -/
theorem group_emission_requires_members_witness :
    (GroupRec.memberTags ⟨"G", 2, 2, [2]⟩ ≠ []) ∧
    groupOfComponent sampleFieldsA ⟨"10", "G", "BlockRepeating", [], []⟩
      [⟨"10", "2", 0, 1⟩] = none :=
  ⟨(group_emission_requires_members sampleFieldsA
      ⟨"10", "G", "BlockRepeating", [], []⟩
      [⟨"10", "2", 0, 1⟩, ⟨"10", "2", 1, 2⟩]).1 ⟨"G", 2, 2, [2]⟩ (by decide),
   (group_emission_requires_members sampleFieldsA
      ⟨"10", "G", "BlockRepeating", [], []⟩
      [⟨"10", "2", 0, 1⟩]).2 (Or.inr (by decide))⟩

/-! ### Claim C2: only the first count-type row becomes the count tag -/

/-- C2 counterexample: with fields 2 and 3 both of type NumInGroup and a
repeating component whose sorted rows are tag 2 (indent 0) then tag 3
(indent 1), the emitted group is ⟨countTag 2, members [3]⟩: the subsequent
count-type row for tag 3 contributed a member tag, refuting "it contributes
neither a count tag nor a member tag". -/
theorem subsequent_count_row_becomes_member_counterexample :
    dget "G" (identify_repeating_groups sampleComps sampleContentsB
        sampleFieldsB) = some ⟨"G", 2, 3, [3]⟩ ∧
    (dget 3 sampleFieldsB).map FieldRec.type = some "NumInGroup" := by
  decide

/-- C2 amended: the count tag is exactly the tag of the first content row
that is numeric, known and count-typed (later count-type rows never change
it); a subsequent count-type row is instead treated like any other known
numeric row — appended to the member list when its indent is ≥ 1, ignored
otherwise. -/
theorem count_tag_first_only (fields : List (Nat × FieldRec))
    (rows : List ContentRow) (st : GroupScan) (item : ContentRow) :
    (scanContents fields rows).countTag =
      ((rows.find? (isCountRow fields)).map fun r => pyToNat r.tagText) ∧
    (isCountRow fields item = true → st.countTag ≠ none →
      scanItem fields st item =
        if item.indent ≥ 1 then
          { st with
              firstTag := match st.firstTag with
                | none => some (pyToNat item.tagText)
                | some t => some t,
              memberTags := st.memberTags ++ [pyToNat item.tagText] }
        else st) := by
  constructor
  · exact scan_countTag_eq_find fields rows ⟨none, none, []⟩ rfl
  · intro hc hnone
    cases hf : dget (pyToNat item.tagText) fields with
    | none => rw [isCountRow, hf] at hc; simp at hc
    | some f =>
      rw [isCountRow, hf] at hc
      rw [Bool.and_eq_true, decide_eq_true_eq] at hc
      cases hst : st.countTag with
      | none => exact absurd hst hnone
      | some c =>
        by_cases hi : item.indent ≥ 1
        · simp [scanItem, hc.1, hf, hc.2, hst, hi]
        · simp [scanItem, hc.1, hf, hc.2, hst, hi]

/-- Witness for C2 amended at a concrete scan: the count tag of the sorted
rows [tag 2 @ indent 0, tag 3 @ indent 1] is 2, and scanning the
count-typed tag-3 row with the count tag already set appends member 3. -/
theorem count_tag_first_only_witness :
    (scanContents sampleFieldsB
        [⟨"10", "2", 0, 1⟩, ⟨"10", "3", 1, 2⟩]).countTag = some 2 ∧
    scanItem sampleFieldsB ⟨some 2, none, []⟩ ⟨"10", "3", 1, 2⟩ =
      ⟨some 2, some 3, [3]⟩ :=
  ⟨((count_tag_first_only sampleFieldsB
        [⟨"10", "2", 0, 1⟩, ⟨"10", "3", 1, 2⟩] ⟨some 2, none, []⟩
        ⟨"10", "3", 1, 2⟩).1).trans (by decide),
   ((count_tag_first_only sampleFieldsB
        [⟨"10", "2", 0, 1⟩, ⟨"10", "3", 1, 2⟩] ⟨some 2, none, []⟩
        ⟨"10", "3", 1, 2⟩).2 (by decide) (by decide)).trans (by decide)⟩

/-! ### Claim C5: standard header/trailer placeholders are inert -/

/-- C5: a content row whose tag-text is `StandardHeader` or
`StandardTrailer` leaves the associator's tag and group reference lists
unchanged (so it produces no scalar tag, group-start or component
reference), and leaves the repeating-group scan state unchanged (so it
produces no count tag and no group member). -/
theorem header_trailer_rows_inert (fields : List (Nat × FieldRec))
    (comps : List (String × CompRec)) (acc : List TagRef × List GroupRef)
    (st : GroupScan) (item : ContentRow)
    (h : item.tagText = "StandardHeader" ∨ item.tagText = "StandardTrailer") :
    stepItem fields comps acc item = acc ∧ scanItem fields st item = st := by
  have hd : pyIsDigit item.tagText = false := by
    rcases h with h | h <;> rw [h] <;> decide
  constructor
  · rw [stepItem, if_pos h]
  · simp [scanItem, hd]

/-- Witness for C5 on a concrete `StandardHeader` row. -/
theorem header_trailer_rows_inert_witness :
    stepItem sampleFieldsA sampleComps ([], []) ⟨"X", "StandardHeader", 0, 1⟩ =
      ([], []) ∧
    scanItem sampleFieldsA ⟨none, none, []⟩ ⟨"X", "StandardHeader", 0, 1⟩ =
      ⟨none, none, []⟩ :=
  header_trailer_rows_inert sampleFieldsA sampleComps ([], [])
    ⟨none, none, []⟩ ⟨"X", "StandardHeader", 0, 1⟩ (Or.inl rfl)

/-! ### Claim C7: determinism of the pipeline -/

/-- C7: the per-version pipeline is a pure function of its input tables:
two runs on identical inputs produce equal documents, and hence identical
bytes under any serialization of the document. -/
theorem generator_deterministic (v1 v2 : String) (t1 t2 : VersionTables)
    (hv : v1 = v2) (ht : t1 = t2) :
    process_version v1 t1 = process_version v2 t2 ∧
    ∀ serialize : XmlDoc → String,
      serialize (process_version v1 t1) = serialize (process_version v2 t2) := by
  subst hv
  subst ht
  exact ⟨rfl, fun _ => rfl⟩

/-- Witness for C7 at a concrete run. -/
theorem generator_deterministic_witness :
    process_version "FIX.4.2" ⟨[], [], [], [], []⟩ =
      process_version "FIX.4.2" ⟨[], [], [], [], []⟩ ∧
    ∀ serialize : XmlDoc → String,
      serialize (process_version "FIX.4.2" ⟨[], [], [], [], []⟩) =
        serialize (process_version "FIX.4.2" ⟨[], [], [], [], []⟩) :=
  generator_deterministic "FIX.4.2" "FIX.4.2" ⟨[], [], [], [], []⟩
    ⟨[], [], [], [], []⟩ rfl rfl

/-! ### Claim C8: command-line failure modes -/

/-- C8: with fewer than two user-supplied arguments (argv, including the
program name, shorter than 3) `main` takes the usage outcome with exit
status 1 (non-zero); when the resolved repository path fails the existence
check it takes the missing-repository outcome with exit status 1.  Neither
outcome carries versions: only the `run` outcome proceeds to version
processing. -/
theorem main_usage_and_missing_repo (argv : List String)
    (pathExists : String → Bool) :
    (argv.length < 3 → main_model argv pathExists = MainOutcome.usage 1) ∧
    (¬ argv.length < 3 →
      pathExists (resolvedRepo argv pathExists) = false →
      main_model argv pathExists = MainOutcome.missingRepo 1) := by
  constructor
  · intro h
    rw [main_model, if_pos h]
  · intro h hp
    rw [main_model, if_neg h]
    simp [hp]

/-- Witness for C8 at concrete invocations. -/
theorem main_usage_and_missing_repo_witness :
    main_model ["generate-fix-dictionary.py"] (fun _ => false) =
      MainOutcome.usage 1 ∧
    main_model ["generate-fix-dictionary.py", "repo", "out"] (fun _ => false) =
      MainOutcome.missingRepo 1 :=
  ⟨(main_usage_and_missing_repo ["generate-fix-dictionary.py"]
      (fun _ => false)).1 (by decide),
   (main_usage_and_missing_repo ["generate-fix-dictionary.py", "repo", "out"]
      (fun _ => false)).2 (by decide) rfl⟩

/-! ### Claim C9: owner resolution prefers messages -/

/-- C9: when a content-row owner identifier resolves in the message mapping,
the associator attaches the folded references to the message record and
returns the component mapping unchanged; only identifiers absent from the
message mapping fall through to the component mapping. -/
theorem owner_resolution_prefers_messages (fields : List (Nat × FieldRec))
    (messages : List (String × MsgRec)) (components : List (String × CompRec))
    (compId : String) (contents : List ContentRow) :
    (∀ m, dget compId messages = some m →
      applyOwner fields (messages, components) (compId, contents) =
        (dinsert compId
          { m with
              tags := (contents.foldl (stepItem fields components)
                (m.tags, m.groups)).1,
              groups := (contents.foldl (stepItem fields components)
                (m.tags, m.groups)).2 } messages,
          components)) ∧
    (dget compId messages = none →
      (applyOwner fields (messages, components) (compId, contents)).1 =
        messages) := by
  constructor
  · intro m hm
    rw [applyOwner]
    simp only [hm]
  · intro hm
    rw [applyOwner]
    simp only [hm]
    cases hc : dget compId components <;> simp [hc]

/-- Witness for C9: identifier `5` is present in both mappings; the message
record receives the (empty) reference update and the component mapping is
returned untouched. -/
theorem owner_resolution_prefers_messages_witness :
    applyOwner sampleFieldsA (sampleMessages, sampleCompsDup) ("5", []) =
      ([("5", ⟨"5", "D", "NewOrderSingle", [], []⟩)], sampleCompsDup) :=
  ((owner_resolution_prefers_messages sampleFieldsA sampleMessages
      sampleCompsDup "5" []).1 ⟨"5", "D", "NewOrderSingle", [], []⟩
      (by decide)).trans (by decide)

/-! ### Invariants of the loaded field table -/

theorem foldl_preserve {γ δ : Type} (step : γ → δ → γ) (Q : γ → Prop)
    (hstep : ∀ acc d, Q acc → Q (step acc d)) :
    ∀ (l : List δ) (acc : γ), Q acc → Q (l.foldl step acc) := by
  intro l
  induction l with
  | nil => intro acc h; simpa using h
  | cons d l ih =>
    intro acc h
    rw [List.foldl_cons]
    exact ih _ (hstep acc d h)

theorem parse_fields_key_tag (rows : List FieldRow) :
    ∀ p ∈ parse_fields rows, (p.2 : FieldRec).tag = p.1 := by
  refine foldl_preserve _
    (fun m : List (Nat × FieldRec) => ∀ p ∈ m, p.2.tag = p.1)
    ?_ rows [] (by simp)
  intro acc r h p hp
  rcases mem_dinsert hp with h' | h'
  · rw [h']
  · exact h p h'

theorem fields_key_tag (frows : List FieldRow) (erows : List EnumRow) :
    ∀ p ∈ parse_enums erows (parse_fields frows),
      (p.2 : FieldRec).tag = p.1 := by
  refine foldl_preserve _
    (fun m : List (Nat × FieldRec) => ∀ p ∈ m, p.2.tag = p.1)
    ?_ erows (parse_fields frows) (parse_fields_key_tag frows)
  intro acc r h p hp
  cases hm : dget r.tag acc with
  | none => rw [hm] at hp; exact h p hp
  | some f =>
    rw [hm] at hp
    rcases mem_dinsert hp with h' | h'
    · rw [h']
      exact h (r.tag, f) (dget_mem hm)
    · exact h p h'

theorem parse_fields_nodup_keys (rows : List FieldRow) :
    (dkeys (parse_fields rows)).Nodup := by
  refine foldl_preserve _
    (fun m : List (Nat × FieldRec) => (dkeys m).Nodup)
    ?_ rows [] (by simp [dkeys])
  intro acc r h
  exact nodup_dkeys_dinsert _ _ h

theorem fields_nodup_keys (frows : List FieldRow) (erows : List EnumRow) :
    (dkeys (parse_enums erows (parse_fields frows))).Nodup := by
  refine foldl_preserve _
    (fun m : List (Nat × FieldRec) => (dkeys m).Nodup)
    ?_ erows (parse_fields frows) (parse_fields_nodup_keys frows)
  intro acc r h
  cases hm : dget r.tag acc with
  | none => exact h
  | some f => exact nodup_dkeys_dinsert _ _ h

theorem fields_enum_keys_nodup (frows : List FieldRow) (erows : List EnumRow) :
    ∀ p ∈ parse_enums erows (parse_fields frows),
      (dkeys (p.2 : FieldRec).enums).Nodup := by
  have hbase : ∀ p ∈ parse_fields frows, (dkeys (p.2 : FieldRec).enums).Nodup := by
    refine foldl_preserve _
      (fun m : List (Nat × FieldRec) => ∀ p ∈ m, (dkeys p.2.enums).Nodup)
      ?_ frows [] (by simp)
    intro acc r h p hp
    rcases mem_dinsert hp with h' | h'
    · rw [h']; simp [dkeys]
    · exact h p h'
  refine foldl_preserve _
    (fun m : List (Nat × FieldRec) => ∀ p ∈ m, (dkeys p.2.enums).Nodup)
    ?_ erows (parse_fields frows) hbase
  intro acc r h p hp
  cases hm : dget r.tag acc with
  | none => rw [hm] at hp; exact h p hp
  | some f =>
    rw [hm] at hp
    rcases mem_dinsert hp with h' | h'
    · rw [h']
      exact nodup_dkeys_dinsert _ _ (h (r.tag, f) (dget_mem hm))
    · exact h p h'

/-! ### Claim C6: emitted field tags strictly ascending -/

theorem emitted_field_tags (fs : List (Nat × FieldRec))
    (hkt : ∀ p ∈ fs, (p.2 : FieldRec).tag = p.1) :
    ∀ ks : List Nat, (∀ k ∈ ks, k ∈ dkeys fs) →
      ((ks.filterMap (fun t => (dget t fs).map emitField)).map XmlField.tag)
        = ks := by
  intro ks
  induction ks with
  | nil => intro _; simp
  | cons k ks ih =>
    intro hks
    have hk : k ∈ dkeys fs := hks k (List.mem_cons_self k ks)
    obtain ⟨f, hf⟩ := dget_isSome_of_mem_dkeys hk
    have htag : (emitField f).tag = k := hkt (k, f) (dget_mem hf)
    simp only [List.filterMap_cons, hf, Option.map_some', List.map_cons, htag]
    rw [ih (fun k' hk' => hks k' (List.mem_cons_of_mem _ hk'))]

/-- C6: in the emitted fields section the sequence of tag attributes is
strictly ascending (hence duplicate-free), for every loaded field table —
duplicate input records were already collapsed by the dict overwrite in
`parse_fields`. -/
theorem fields_section_strictly_ascending (fieldRows : List FieldRow)
    (enumRows : List EnumRow) (version : String)
    (messages : List (String × MsgRec)) (components : List (String × CompRec))
    (groups : List (String × GroupRec)) :
    List.Sorted (· < ·)
      (((generate_xml version (parse_enums enumRows (parse_fields fieldRows))
        messages components groups).fields).map XmlField.tag) := by
  set fs := parse_enums enumRows (parse_fields fieldRows) with hfs
  have h1 : ((generate_xml version fs messages components groups).fields).map
      XmlField.tag = List.insertionSort (· ≤ ·) (dkeys fs) := by
    refine emitted_field_tags fs (by rw [hfs]; exact fields_key_tag _ _) _ ?_
    intro k hk
    exact (List.perm_insertionSort (· ≤ ·) (dkeys fs)).subset hk
  rw [h1]
  have hsorted : List.Sorted (· ≤ ·) (List.insertionSort (· ≤ ·) (dkeys fs)) :=
    List.sorted_insertionSort _ _
  have hnodup : (List.insertionSort (· ≤ ·) (dkeys fs)).Nodup :=
    ((List.perm_insertionSort (· ≤ ·) (dkeys fs)).nodup_iff).mpr
      (by rw [hfs]; exact fields_nodup_keys _ _)
  exact hsorted.lt_of_le hnodup

/-! ### Claim C4: enum values unique, description truncation -/

/-- C4 counterexample: an enum row whose SymbolicName element is present but
empty (so `parse_enums` stores description `None`) and whose raw value is
101 characters long makes line 227's falsy-description fallback emit the raw
value untruncated: the emitted description has length 101 > 100. -/
theorem untruncated_fallback_counterexample :
    ((generate_xml "FIX.4.4" (parse_enums [sampleEnumRowEmptyName]
        sampleFieldsC) [] [] []).fields.map
      (fun f => f.enums.map (fun e => e.desc.length))) = [[101]] ∧
    ¬ (101 ≤ 100) := by
  decide

/-- C4 amended: within every emitted field the enum value attributes are
unique, and each emitted description either respects the 100-character
truncation bound or is the raw enum value itself (the untruncated fallback
taken when the stored description is empty or absent). -/
theorem enum_values_unique_desc_bounded (fieldRows : List FieldRow)
    (enumRows : List EnumRow) (version : String)
    (messages : List (String × MsgRec)) (components : List (String × CompRec))
    (groups : List (String × GroupRec)) :
    ∀ f ∈ (generate_xml version (parse_enums enumRows (parse_fields fieldRows))
        messages components groups).fields,
      (f.enums.map XmlEnum.value).Nodup ∧
      ∀ e ∈ f.enums, e.desc.length ≤ 100 ∨ e.desc = e.value := by
  intro f hf
  obtain ⟨k, hk, hsome⟩ := List.mem_filterMap.mp hf
  cases hgf : dget k (parse_enums enumRows (parse_fields fieldRows)) with
  | none => rw [hgf] at hsome; cases hsome
  | some frec =>
    rw [hgf] at hsome
    rw [Option.map_some'] at hsome
    cases hsome
    constructor
    · have hnd : (dkeys frec.enums).Nodup :=
        fields_enum_keys_nodup fieldRows enumRows (k, frec) (dget_mem hgf)
      have hmm : ((emitField frec).enums.map XmlEnum.value) =
          (List.insertionSort enumLe frec.enums).map Prod.fst := by
        rw [emitField, List.map_map]
        rfl
      rw [hmm]
      have hperm : List.Perm
          ((List.insertionSort enumLe frec.enums).map Prod.fst)
          (frec.enums.map Prod.fst) :=
        (List.perm_insertionSort enumLe frec.enums).map _
      exact (hperm.nodup_iff).mpr hnd
    · intro e he
      rw [emitField] at he
      obtain ⟨pair, _, hpe⟩ := List.mem_map.mp he
      cases hpe
      cases hd : pair.2 with
      | none =>
        right
        simp [emitDesc, hd]
      | some d =>
        by_cases hde : d = ""
        · right
          simp [emitDesc, hd, hde]
        · left
          simp only [emitDesc, hd, if_neg hde]
          show (pySlice d 100).length ≤ 100
          rw [pySlice,
            show (String.mk (d.data.take 100)).length =
              (d.data.take 100).length from rfl,
            List.length_take]
          exact Nat.min_le_left _ _

/-- Witness for C4 amended at a concrete loaded table. -/
theorem enum_values_unique_desc_bounded_witness :
    (((⟨1, "Account", "STRING", [⟨"A", "AccountA"⟩]⟩ : XmlField).enums.map
        XmlEnum.value).Nodup) ∧
    ∀ e ∈ (⟨1, "Account", "STRING", [⟨"A", "AccountA"⟩]⟩ : XmlField).enums,
      e.desc.length ≤ 100 ∨ e.desc = e.value :=
  enum_values_unique_desc_bounded [⟨1, "Account", "STRING"⟩]
    [⟨1, "A", some (some "AccountA"), none⟩] "FIX.4.4" [] [] []
    ⟨1, "Account", "STRING", [⟨"A", "AccountA"⟩]⟩ (by decide)

end FixDict
